import Mathlib
/-!
Shallow embedding of `Tracking_Software.py` (cloud-chamber track extraction).

Modelling conventions:
* Images ("masks", labeled cluster images) are `Grid := List (List ℕ)` in
  row-major order, matching numpy 2-D arrays of non-negative integers.
* Floating-point quantities are modelled exactly: centroids are rational
  pairs, and every Euclidean length produced by `scipy.spatial.distance.
  euclidean` is carried as its *square* (a rational).  All operations the
  program performs on these lengths — the comparison `dis <
  meanshift_length`, the comparison `length > len_buffer[idx]`, and the
  final division `len_buffer[idx] / pix_per_cm` — are strictly monotone
  under squaring, so the squared representation is an exact model; the
  real-valued length is recovered with `Real.sqrt` (see `lengthCm`, and
  the lemma `withinShift_iff_sqrt_lt` relating the squared comparison to
  the source's comparison of the non-squared distance).
* The external collaborators `scipy.ndimage.label` (used inside `denoise`
  with 4-connectivity and in the frame loop with an `ones((3,3))`
  8-connectivity structure) are passed in as opaque labeling functions
  `Grid → Grid × ℕ`, exactly as the spec treats the `Labeler` capability.
-/
namespace Tracking

/-- A 2-D image as a row-major list of rows of pixel values (0 = background). -/
abbrev Grid := List (List ℕ)

/-- Number of pixels of `g` holding value `v` (`np.bincount(g.ravel())[v]`). -/
def countVal (g : Grid) (v : ℕ) : ℕ := (g.flatten.filter (· = v)).length

/-- Largest pixel value of `g` (`bincount` has length `max+1`). -/
def maxLabel (g : Grid) : ℕ := g.flatten.foldl max 0

/-- `noise_idx = np.where(binc <= nthresh)` from `denoise`: the label values
`0 .. maxLabel` whose global pixel count is `≤ nthresh`. -/
def noiseLabels (L : Grid) (nthresh : ℕ) : List ℕ :=
  (List.range (maxLabel L + 1)).filter (fun v => countVal L v ≤ nthresh)

/-- The in-place masking step of `denoise`: zero every pixel of `image`
whose label (in the labeled array `L`) belongs to `noiseLabels L nthresh`
(`mask = np.in1d(labeled_array, noise_idx)...; image[mask] = 0`). -/
def denoiseWith (image L : Grid) (nthresh : ℕ) : Grid :=
  List.zipWith
    (fun irow lrow =>
      List.zipWith (fun x l => if l ∈ noiseLabels L nthresh then 0 else x) irow lrow)
    image L

/-- `denoise(image, nthresh)`: label the image with the external labeler
(`scipy.ndimage.label` with default 4-connectivity), then zero every pixel
belonging to a component of total count `≤ nthresh`. -/
def denoise (labelFn : Grid → Grid × ℕ) (image : Grid) (nthresh : ℕ) : Grid :=
  denoiseWith image (labelFn image).1 nthresh

/-- The non-zero values collected from the four borders in
`remove_border_tracks`: `lb` = column 0, `rb` = last column, `tb` = interior
of row 0 (`image[0, 1:-1]`), `bb` = interior of the last row. -/
def borderVals (g : Grid) : List ℕ :=
  let lb := (g.filterMap List.head?).filter (· ≠ 0)
  let rb := (g.filterMap List.getLast?).filter (· ≠ 0)
  let tb := (((g.headD []).drop 1).dropLast).filter (· ≠ 0)
  let bb := (((g.getLastD []).drop 1).dropLast).filter (· ≠ 0)
  lb ++ rb ++ tb ++ bb

/-- `remove_border_tracks(image)`: zero every pixel whose value occurs
(non-zero) somewhere on the image border; the four sequential
`image[image == val] = 0` passes are order-independent, so the result is a
single pointwise masking against `borderVals`. -/
def remove_border_tracks (image : Grid) : Grid :=
  image.map (fun row => row.map (fun x => if x ∈ borderVals image then 0 else x))

/-- `np.all(g == 0)`. -/
def allZero (g : Grid) : Bool := g.all (fun row => row.all (· = 0))

/-- `np.where(clusters == lab)` in row-major order: the (row, column)
coordinates of the pixels holding value `v`. -/
def coordsOf (g : Grid) (v : ℕ) : List (ℕ × ℕ) :=
  (g.enum.map (fun p => p.2.enum.filterMap
    (fun q => if q.2 = v then some (p.1, q.1) else none))).flatten

/-- Per-region statistics: centroid `(mean x, mean y)` in `(column, row)`
order, squared linear extent, and pixel area. -/
structure RegionStats where
  mean : ℚ × ℚ
  lenSq : ℚ
  area : ℕ
deriving DecidableEq

/-- Squared Euclidean distance between two rational points. -/
def sqDist (a b : ℚ × ℚ) : ℚ := (a.1 - b.1) ^ 2 + (a.2 - b.2) ^ 2

/-- Statistics of region `v` in the labeled image `g`, or `none` when the
region is empty (`np.shape(idxs)[1] == 0` skip).  `mean = [np.mean(idxs[1]),
np.mean(idxs[0])]`; `lenSq` is the squared `get_length` (distance between
first and last member pixel in scan order); `area = get_area(g)[v]`. -/
def statsOf (g : Grid) (v : ℕ) : Option RegionStats :=
  match coordsOf g v with
  | [] => none
  | p :: ps =>
    let all := p :: ps
    let k : ℚ := (all.length : ℚ)
    let q := all.getLast (by simp)
    some { mean := ((all.map (fun c => (c.2 : ℚ))).sum / k,
                    (all.map (fun c => (c.1 : ℚ))).sum / k),
           lenSq := ((p.1 : ℚ) - (q.1 : ℚ)) ^ 2 + ((p.2 : ℚ) - (q.2 : ℚ)) ^ 2,
           area := all.length }

/-- Configuration inputs of the frame loop. -/
structure Params where
  framebuff : ℕ
  meanshift : ℚ
  nthresh : ℕ
  ppcm : ℚ
deriving DecidableEq

/-- The whole mutable state of the frame loop: the five parallel per-track
buffers and the three accumulated output lists.  `len_buffer` holds squared
extents; `len_abs` holds squared centimetre lengths (the square of the
`len_buffer[idx]/pix_per_cm` the source appends). -/
structure TrackState where
  len_buffer : List ℚ
  area_buffer : List ℕ
  frame_buffer : List ℕ
  mean_buffer : List (ℚ × ℚ)
  seen : List Bool
  len_abs : List ℚ
  area_abs : List ℚ
  frames_abs : List ℕ
deriving DecidableEq

/-- The empty buffers the program starts with. -/
def initState : TrackState := ⟨[], [], [], [], [], [], [], []⟩

/-- The source's `dis < meanshift_length` where `dis = sqrt d2`: true iff
`meanshift` is positive and the squared distance is below its square. -/
def withinShift (m d2 : ℚ) : Bool := decide (0 < m) && decide (d2 < m ^ 2)

/-- `seen[:len(seen)] = [0] * len(seen)`. -/
def resetSeen (s : TrackState) : TrackState :=
  { s with seen := s.seen.map (fun _ => false) }

/-- Processing of one region `r` against the buffers (lines 140-158): every
index whose stored centroid is within `meanshift` of `r.mean` (tested
against the centroid as it was when the region's scan started — the inner
loop mutates only the index it is visiting) is updated: `frame_buffer`
incremented, `seen` set, centroid overwritten, extent/area raised to the
maximum; there is no `break`, so all matching indices are updated.  If no
index matches, a new track is appended to all five buffers. -/
def associateRegion (P : Params) (s : TrackState) (r : RegionStats) : TrackState :=
  let hits := s.mean_buffer.map (fun v => withinShift P.meanshift (sqDist v r.mean))
  let t : TrackState :=
    { s with
      frame_buffer := List.zipWith (fun f h => if h then f + 1 else f) s.frame_buffer hits
      seen := List.zipWith (fun b h => if h then true else b) s.seen hits
      mean_buffer := List.zipWith (fun v h => if h then r.mean else v) s.mean_buffer hits
      len_buffer :=
        List.zipWith (fun l h => if h && decide (l < r.lenSq) then r.lenSq else l)
          s.len_buffer hits
      area_buffer :=
        List.zipWith (fun a h => if h && decide (a < r.area) then r.area else a)
          s.area_buffer hits }
  if hits.any id then t
  else
    { t with
      seen := t.seen ++ [true]
      frame_buffer := t.frame_buffer ++ [1]
      mean_buffer := t.mean_buffer ++ [r.mean]
      len_buffer := t.len_buffer ++ [r.lenSq]
      area_buffer := t.area_buffer ++ [r.area] }

/-- `np.where(np.array(seen) == 0)[0][::-1]`: indices of unseen tracks in
descending order. -/
def unseenIdxs (s : TrackState) : List ℕ :=
  ((List.range s.seen.length).filter (fun i => s.seen.getD i true = false)).reverse

/-- One iteration of the eviction loop at index `i` (lines 162-173): emit a
finalized record when `frame_buffer[i] > framebuff` (strictly), then delete
index `i` from all five buffers. -/
def evictOne (P : Params) (s : TrackState) (i : ℕ) : TrackState :=
  let s1 :=
    if P.framebuff < s.frame_buffer.getD i 0 then
      { s with
        frames_abs := s.frames_abs ++ [s.frame_buffer.getD i 0]
        len_abs := s.len_abs ++ [s.len_buffer.getD i 0 / P.ppcm ^ 2]
        area_abs := s.area_abs ++ [(s.area_buffer.getD i 0 : ℚ) / P.ppcm ^ 2] }
    else s
  { s1 with
    len_buffer := s1.len_buffer.eraseIdx i
    seen := s1.seen.eraseIdx i
    mean_buffer := s1.mean_buffer.eraseIdx i
    area_buffer := s1.area_buffer.eraseIdx i
    frame_buffer := s1.frame_buffer.eraseIdx i }

/-- The whole eviction pass of one frame. -/
def evict (P : Params) (s : TrackState) : TrackState :=
  (unseenIdxs s).foldl (evictOne P) s

/-- The per-frame lifecycle over an already-extracted region list: reset
seen flags, associate every region in order (a region appended by an
earlier region of the same frame is a live candidate for later regions),
then evict unseen tracks. -/
def frameLifecycle (P : Params) (regions : List RegionStats) (s : TrackState) :
    TrackState :=
  evict P (regions.foldl (associateRegion P) (resetSeen s))

/-- One iteration of the frame loop (lines 108-173), starting from the
foreground mask produced by the external segmenter: denoise (skip the frame
if all zero), cluster with the 8-connectivity labeler, remove border
regions (skip if all zero), compute stats of each label `1..num` (skipping
emptied labels) and run the lifecycle. -/
def processFrame (P : Params) (lab4 lab8 : Grid → Grid × ℕ) (s : TrackState)
    (mask : Grid) : TrackState :=
  let maskProc := denoise lab4 mask P.nthresh
  if allZero maskProc then s
  else
    let clusters := remove_border_tracks (lab8 maskProc).1
    if allZero clusters then s
    else
      frameLifecycle P
        ((List.range (lab8 maskProc).2).filterMap (fun i => statsOf clusters (i + 1)))
        s

/-- The full frame loop over the mask sequence; the program then writes the
three `_abs` lists out without touching the live buffers. -/
def runLoop (P : Params) (lab4 lab8 : Grid → Grid × ℕ) (masks : List Grid) :
    TrackState :=
  masks.foldl (processFrame P lab4 lab8) initState

/-- All five parallel track buffers have the same length. -/
def aligned (s : TrackState) : Prop :=
  s.len_buffer.length = s.seen.length ∧
  s.area_buffer.length = s.seen.length ∧
  s.frame_buffer.length = s.seen.length ∧
  s.mean_buffer.length = s.seen.length

instance (s : TrackState) : Decidable (aligned s) := by
  unfold aligned; infer_instance

/-- The tracks whose flag is set, in order, with original attributes. -/
def keep {α : Type _} (flags : List Bool) (xs : List α) : List α :=
  (flags.zip xs).filterMap (fun p => if p.1 then some p.2 else none)

/-- The attribute values of unseen tracks above the frame-buffer threshold,
in ascending index order. -/
def dropsAsc {α : Type _} (P : Params) (flags : List Bool) (fb : List ℕ)
    (xs : List α) : List α :=
  (flags.zip (fb.zip xs)).filterMap
    (fun p => if !p.1 && decide (P.framebuff < p.2.1) then some p.2.2 else none)

/-- Appending one track (with given attribute values) to the five live
buffers; the output lists are untouched. -/
def appendTrack (s : TrackState) (l : ℚ) (a : ℕ) (f : ℕ) (m : ℚ × ℚ)
    (b : Bool) : TrackState :=
  { s with
    len_buffer := s.len_buffer ++ [l]
    area_buffer := s.area_buffer ++ [a]
    frame_buffer := s.frame_buffer ++ [f]
    mean_buffer := s.mean_buffer ++ [m]
    seen := s.seen ++ [b] }

/-- The squared-centimetre scaling the source applies to an emitted
length: the square of `len_buffer[idx] / pix_per_cm`. -/
def scaleLen (P : Params) (l : ℚ) : ℚ := l / P.ppcm ^ 2

/-- The scaling the source applies to an emitted area:
`area_buffer[idx] / pix_per_cm ** 2`. -/
def scaleArea (P : Params) (a : ℕ) : ℚ := (a : ℚ) / P.ppcm ^ 2

/-- What the eviction pass computes, in closed form: each live buffer keeps
exactly the seen tracks with their original attributes, and each output
list gains the values of the unseen tracks strictly above the threshold, in
descending index order. -/
def evictClosedForm (P : Params) (s : TrackState) : TrackState :=
  { len_buffer := keep s.seen s.len_buffer
    area_buffer := keep s.seen s.area_buffer
    frame_buffer := keep s.seen s.frame_buffer
    mean_buffer := keep s.seen s.mean_buffer
    seen := keep s.seen s.seen
    len_abs := s.len_abs ++
      (dropsAsc P s.seen s.frame_buffer (s.len_buffer.map (scaleLen P))).reverse
    area_abs := s.area_abs ++
      (dropsAsc P s.seen s.frame_buffer (s.area_buffer.map (scaleArea P))).reverse
    frames_abs := s.frames_abs ++
      (dropsAsc P s.seen s.frame_buffer s.frame_buffer).reverse }

/-- The hit test the inner loop performs at index `i` for region `r`. -/
def hitAt (P : Params) (s : TrackState) (r : RegionStats) (i : ℕ) : Bool :=
  withinShift P.meanshift (sqDist (s.mean_buffer.getD i (0, 0)) r.mean)

/-- The finalized-record `frames_seen` values emitted while processing each
frame, in order of finalization. -/
def loopEmits (P : Params) (lab4 lab8 : Grid → Grid × ℕ) :
    List Grid → TrackState → List ℕ
  | [], _ => []
  | m :: ms, s =>
    let t := processFrame P lab4 lab8 s m
    (t.frames_abs.drop s.frames_abs.length) ++ loopEmits P lab4 lab8 ms t

/-- Value of cell `(r, c)` of a grid (default 0 out of bounds; every use
below is in bounds). -/
def cellD (g : Grid) (r c : ℕ) : ℕ := (g.getD r []).getD c 0

/-- `(r, c)` lies on the image border: first or last row, first or last
column. -/
def isBorderCell (g : Grid) (r c : ℕ) : Prop :=
  r = 0 ∨ r + 1 = g.length ∨ c = 0 ∨ c + 1 = (g.getD r []).length

instance (g : Grid) (r c : ℕ) : Decidable (isBorderCell g r c) := by
  unfold isBorderCell; infer_instance

/-- A trivial external labeler for demonstration runs: returns the mask
itself as the labeled image with one label. -/
def identityLabeler : Grid → Grid × ℕ := fun g => (g, 1)

/-- A 3-by-3 mask with a single interior foreground pixel. -/
def demoMask : Grid := [[0, 0, 0], [0, 1, 0], [0, 0, 0]]

/-- Four-frame run reproducing the max-aggregation example of the spec: a
single track matched with extents 10, 40, 25 (squares 100, 1600, 625) and
areas 100, 80, 150, then finalized when a far-away region takes its place. -/
def maxDemoRun : TrackState :=
  frameLifecycle ⟨1, 25, 0, 120⟩ [⟨(100, 100), 0, 1⟩]
    (frameLifecycle ⟨1, 25, 0, 120⟩ [⟨(0, 0), 625, 150⟩]
      (frameLifecycle ⟨1, 25, 0, 120⟩ [⟨(0, 0), 1600, 80⟩]
        (frameLifecycle ⟨1, 25, 0, 120⟩ [⟨(0, 0), 100, 100⟩] initState)))

/-- Two-frame run reproducing the unit-conversion example of the spec: one
track with extent 120 (square 14400) and area 14400, `pixels_per_cm = 120`,
finalized in the second frame. -/
def convDemoRun : TrackState :=
  frameLifecycle ⟨0, 25, 0, 120⟩ [⟨(100, 100), 0, 1⟩]
    (frameLifecycle ⟨0, 25, 0, 120⟩ [⟨(0, 0), 14400, 14400⟩] initState)

/-- Two-track state, both unseen, one above the frame-buffer threshold and
one exactly at it. -/
def evictDemoState : TrackState :=
  ⟨[4, 9], [10, 20], [2, 1], [(0, 0), (1, 1)], [false, false], [], [], []⟩

/-- Five-track state with unseen indices 1, 3 and 4 (the spec's
index-removal example). -/
def removalDemoState : TrackState :=
  ⟨[10, 11, 12, 13, 14], [20, 21, 22, 23, 24], [30, 31, 32, 33, 34],
    [(0, 0), (1, 1), (2, 2), (3, 3), (4, 4)],
    [true, false, true, false, false], [], [], []⟩

/-- Two live tracks whose stored centroids, at (0,0) and (3,4), are both
within the default mean-shift threshold of the origin. -/
def twoTrackState : TrackState :=
  ⟨[0, 0], [1, 1], [1, 1], [(0, 0), (3, 4)], [false, false], [], [], []⟩

/-- A fixed external labeling for the denoise witness: two components, one
of size 1 and one of size 3. -/
def demoLabeling : Grid → Grid × ℕ := fun _ => ([[1, 0, 2], [0, 2, 2]], 2)

/-- Foreground image matching `demoLabeling`. -/
def demoNoisyImage : Grid := [[9, 0, 9], [0, 9, 9]]

/-- Labeled image with region 2 touching the left border and region 1 in
the interior. -/
def demoBorderImage : Grid := [[0, 0, 0, 0], [2, 1, 0, 0], [0, 0, 0, 0]]

theorem getD_append_lt {α : Type _} (xs ys : List α) (d : α) (i : ℕ)
    (h : i < xs.length) : (xs ++ ys).getD i d = xs.getD i d := by
  simp [List.getD_eq_getElem?_getD, List.getElem?_append_left h]

theorem getD_concat_self {α : Type _} (xs : List α) (x d : α) :
    (xs ++ [x]).getD xs.length d = x := by
  simp [List.getD_eq_getElem?_getD, List.getElem?_concat_length]

theorem getD_eq_getElem {α : Type _} (xs : List α) (d : α) (i : ℕ)
    (h : i < xs.length) : xs.getD i d = xs[i] := by
  simp [List.getD_eq_getElem?_getD, List.getElem?_eq_getElem h]

theorem eraseIdx_concat_self {α : Type _} (xs : List α) (x : α) :
    (xs ++ [x]).eraseIdx xs.length = xs := by
  rw [List.eraseIdx_append_of_length_le (Nat.le_refl _)]
  simp

theorem eraseIdx_concat_lt {α : Type _} (xs : List α) (x : α) (i : ℕ)
    (h : i < xs.length) : (xs ++ [x]).eraseIdx i = xs.eraseIdx i ++ [x] :=
  List.eraseIdx_append_of_lt_length h _

theorem keep_nil {α : Type _} (xs : List α) : keep [] xs = [] := rfl

theorem keep_concat {α : Type _} (flags : List Bool) (xs : List α) (b : Bool)
    (x : α) (h : flags.length = xs.length) :
    keep (flags ++ [b]) (xs ++ [x]) = keep flags xs ++ (if b then [x] else []) := by
  unfold keep
  rw [List.zip_append h, List.filterMap_append]
  cases b <;> simp

theorem dropsAsc_concat (P : Params) {α : Type _} (flags : List Bool)
    (fb : List ℕ) (xs : List α) (b : Bool) (f : ℕ) (x : α)
    (hflags : flags.length = fb.length) (hfb : fb.length = xs.length) :
    dropsAsc P (flags ++ [b]) (fb ++ [f]) (xs ++ [x]) =
      dropsAsc P flags fb xs ++
        (if !b && decide (P.framebuff < f) then [x] else []) := by
  unfold dropsAsc
  rw [List.zip_append hfb,
    List.zip_append (by simp [List.length_zip, hflags, hfb]),
    List.filterMap_append]
  cases b <;> by_cases hf : P.framebuff < f <;> simp [hf]

theorem keep_length {α : Type _} :
    ∀ (flags : List Bool) (xs : List α), flags.length = xs.length →
      (keep flags xs).length = (flags.filter id).length
  | [], [], _ => rfl
  | b :: flags, x :: xs, h => by
    have ih := keep_length flags xs (by simpa using h)
    cases b <;> simp [keep, List.zip_cons_cons, List.filterMap_cons] at ih ⊢ <;>
      simpa using ih

/-- `unseenIdxs` lists strictly descending indices. -/
theorem unseenIdxs_pairwise (s : TrackState) :
    (unseenIdxs s).Pairwise (· > ·) := by
  unfold unseenIdxs
  rw [List.pairwise_reverse]
  exact (List.pairwise_lt_range _).filter _

theorem unseenIdxs_lt (s : TrackState) :
    ∀ j ∈ unseenIdxs s, j < s.seen.length := by
  intro j hj
  unfold unseenIdxs at hj
  rw [List.mem_reverse, List.mem_filter] at hj
  exact List.mem_range.mp hj.1

theorem unseen_filter_concat (sn : List Bool) (b : Bool) :
    (List.range (sn ++ [b]).length).filter
        (fun i => (sn ++ [b]).getD i true = false) =
      ((List.range sn.length).filter (fun i => sn.getD i true = false)) ++
        (if b = false then [sn.length] else []) := by
  have hlen : (sn ++ [b]).length = sn.length + 1 := by simp
  rw [hlen, List.range_succ, List.filter_append]
  congr 1
  · exact List.filter_congr (fun i hi => by
      rw [getD_append_lt _ _ _ _ (List.mem_range.mp hi)])
  · simp only [List.filter_cons, List.filter_nil]
    rw [getD_concat_self]
    cases b <;> simp

theorem unseenIdxs_appendTrack (s : TrackState) (l : ℚ) (a : ℕ) (f : ℕ)
    (m : ℚ × ℚ) (b : Bool) :
    unseenIdxs (appendTrack s l a f m b) =
      (if b = false then [s.seen.length] else []) ++ unseenIdxs s := by
  unfold unseenIdxs appendTrack
  simp only
  rw [unseen_filter_concat, List.reverse_append]
  cases b <;> simp

theorem evictOne_concat (P : Params) (lb : List ℚ) (ab : List ℕ) (fb : List ℕ)
    (mb : List (ℚ × ℚ)) (sn : List Bool) (la aa : List ℚ) (fa : List ℕ)
    (l : ℚ) (a : ℕ) (f : ℕ) (m : ℚ × ℚ) (b : Bool)
    (h1 : lb.length = sn.length) (h2 : ab.length = sn.length)
    (h3 : fb.length = sn.length) (h4 : mb.length = sn.length) :
    evictOne P ⟨lb ++ [l], ab ++ [a], fb ++ [f], mb ++ [m], sn ++ [b], la, aa, fa⟩
        sn.length =
      if P.framebuff < f then
        ⟨lb, ab, fb, mb, sn, la ++ [l / P.ppcm ^ 2],
          aa ++ [(a : ℚ) / P.ppcm ^ 2], fa ++ [f]⟩
      else ⟨lb, ab, fb, mb, sn, la, aa, fa⟩ := by
  unfold evictOne
  simp only
  rw [show (fb ++ [f]).getD sn.length 0 = f from h3 ▸ getD_concat_self fb f 0,
    show (lb ++ [l]).getD sn.length 0 = l from h1 ▸ getD_concat_self lb l 0,
    show (ab ++ [a]).getD sn.length 0 = a from h2 ▸ getD_concat_self ab a 0]
  by_cases hf : P.framebuff < f <;>
    simp only [hf, if_true, if_false] <;>
    congr 1 <;>
    first
      | exact h1 ▸ eraseIdx_concat_self lb l
      | exact h2 ▸ eraseIdx_concat_self ab a
      | exact h3 ▸ eraseIdx_concat_self fb f
      | exact h4 ▸ eraseIdx_concat_self mb m
      | exact eraseIdx_concat_self sn b

theorem evictOne_seen (P : Params) (s : TrackState) (i : ℕ) :
    (evictOne P s i).seen = s.seen.eraseIdx i := by
  unfold evictOne
  by_cases hc : P.framebuff < s.frame_buffer[i]?.getD 0 <;> simp [hc]

theorem evictOne_len_buffer (P : Params) (s : TrackState) (i : ℕ) :
    (evictOne P s i).len_buffer = s.len_buffer.eraseIdx i := by
  unfold evictOne
  by_cases hc : P.framebuff < s.frame_buffer[i]?.getD 0 <;> simp [hc]

theorem evictOne_area_buffer (P : Params) (s : TrackState) (i : ℕ) :
    (evictOne P s i).area_buffer = s.area_buffer.eraseIdx i := by
  unfold evictOne
  by_cases hc : P.framebuff < s.frame_buffer[i]?.getD 0 <;> simp [hc]

theorem evictOne_frame_buffer (P : Params) (s : TrackState) (i : ℕ) :
    (evictOne P s i).frame_buffer = s.frame_buffer.eraseIdx i := by
  unfold evictOne
  by_cases hc : P.framebuff < s.frame_buffer[i]?.getD 0 <;> simp [hc]

theorem evictOne_mean_buffer (P : Params) (s : TrackState) (i : ℕ) :
    (evictOne P s i).mean_buffer = s.mean_buffer.eraseIdx i := by
  unfold evictOne
  by_cases hc : P.framebuff < s.frame_buffer[i]?.getD 0 <;> simp [hc]

theorem evictOne_aligned (P : Params) (s : TrackState) (i : ℕ)
    (h : aligned s) : aligned (evictOne P s i) := by
  obtain ⟨h1, h2, h3, h4⟩ := h
  refine ⟨?_, ?_, ?_, ?_⟩ <;>
    simp [evictOne_seen, evictOne_len_buffer, evictOne_area_buffer,
      evictOne_frame_buffer, evictOne_mean_buffer, List.length_eraseIdx,
      h1, h2, h3, h4]

theorem evictOne_appendTrack (P : Params) (s : TrackState) (i : ℕ)
    (l : ℚ) (a : ℕ) (f : ℕ) (m : ℚ × ℚ) (b : Bool)
    (h : aligned s) (hi : i < s.seen.length) :
    evictOne P (appendTrack s l a f m b) i =
      appendTrack (evictOne P s i) l a f m b := by
  obtain ⟨lb, ab, fb, mb, sn, la, aa, fa⟩ := s
  obtain ⟨h1, h2, h3, h4⟩ := h
  simp only at h1 h2 h3 h4 hi
  unfold evictOne appendTrack
  simp only
  rw [getD_append_lt fb [f] 0 i (h3 ▸ hi), getD_append_lt lb [l] 0 i (h1 ▸ hi),
    getD_append_lt ab [a] 0 i (h2 ▸ hi)]
  by_cases hc : P.framebuff < fb.getD i 0 <;>
    simp only [hc, if_true, if_false] <;>
    congr 1 <;>
    first
      | exact eraseIdx_concat_lt lb l i (h1 ▸ hi)
      | exact eraseIdx_concat_lt ab a i (h2 ▸ hi)
      | exact eraseIdx_concat_lt fb f i (h3 ▸ hi)
      | exact eraseIdx_concat_lt mb m i (h4 ▸ hi)
      | exact eraseIdx_concat_lt sn b i hi

theorem foldl_evictOne_appendTrack (P : Params) :
    ∀ (idxs : List ℕ) (s : TrackState) (l : ℚ) (a : ℕ) (f : ℕ) (m : ℚ × ℚ)
      (b : Bool), aligned s → idxs.Pairwise (· > ·) →
      (∀ j ∈ idxs, j < s.seen.length) →
      idxs.foldl (evictOne P) (appendTrack s l a f m b) =
        appendTrack (idxs.foldl (evictOne P) s) l a f m b := by
  intro idxs
  induction idxs with
  | nil => intro s l a f m b _ _ _; rfl
  | cons i rest ih =>
    intro s l a f m b hal hpw hlt
    have hi : i < s.seen.length := hlt i (List.mem_cons_self i rest)
    rw [List.foldl_cons, List.foldl_cons,
      evictOne_appendTrack P s i l a f m b hal hi]
    refine ih (evictOne P s i) l a f m b (evictOne_aligned P s i hal)
      (List.Pairwise.of_cons hpw) ?_
    intro j hj
    have hji : j < i := List.rel_of_pairwise_cons hpw hj
    have : (evictOne P s i).seen.length = s.seen.length - 1 := by
      rw [evictOne_seen, List.length_eraseIdx_of_lt hi]
    omega

theorem evict_closedForm (P : Params) :
    ∀ (n : ℕ) (s : TrackState), s.seen.length = n → aligned s →
      evict P s = evictClosedForm P s := by
  intro n
  induction n with
  | zero =>
    intro s hn h
    obtain ⟨lb, ab, fb, mb, sn, la, aa, fa⟩ := s
    obtain ⟨h1, h2, h3, h4⟩ := h
    simp only at hn h1 h2 h3 h4
    rw [hn] at h1 h2 h3 h4
    rw [List.eq_nil_of_length_eq_zero hn, List.eq_nil_of_length_eq_zero h1,
      List.eq_nil_of_length_eq_zero h2, List.eq_nil_of_length_eq_zero h3,
      List.eq_nil_of_length_eq_zero h4]
    simp [evict, unseenIdxs, evictClosedForm, keep, dropsAsc]
  | succ n ih =>
    intro s hn h
    obtain ⟨lb, ab, fb, mb, sn, la, aa, fa⟩ := s
    obtain ⟨h1, h2, h3, h4⟩ := h
    simp only at hn h1 h2 h3 h4
    rcases List.eq_nil_or_concat sn with rfl | ⟨sn0, b, hsn⟩
    · simp at hn
    rw [List.concat_eq_append] at hsn
    subst hsn
    rcases List.eq_nil_or_concat lb with rfl | ⟨lb0, l, hlb⟩
    · simp at h1
    rw [List.concat_eq_append] at hlb
    subst hlb
    rcases List.eq_nil_or_concat ab with rfl | ⟨ab0, a, hab⟩
    · simp at h2
    rw [List.concat_eq_append] at hab
    subst hab
    rcases List.eq_nil_or_concat fb with rfl | ⟨fb0, f, hfb⟩
    · simp at h3
    rw [List.concat_eq_append] at hfb
    subst hfb
    rcases List.eq_nil_or_concat mb with rfl | ⟨mb0, m, hmb⟩
    · simp at h4
    rw [List.concat_eq_append] at hmb
    subst hmb
    simp only [List.length_append, List.length_cons, List.length_nil] at hn h1 h2 h3 h4
    have hsn0 : sn0.length = n := by omega
    have hl0 : lb0.length = sn0.length := by omega
    have ha0 : ab0.length = sn0.length := by omega
    have hf0 : fb0.length = sn0.length := by omega
    have hm0 : mb0.length = sn0.length := by omega
    set front : TrackState := ⟨lb0, ab0, fb0, mb0, sn0, la, aa, fa⟩ with hfront
    have halfront : aligned front := ⟨hl0, ha0, hf0, hm0⟩
    have hshow : (⟨lb0 ++ [l], ab0 ++ [a], fb0 ++ [f], mb0 ++ [m], sn0 ++ [b],
        la, aa, fa⟩ : TrackState) = appendTrack front l a f m b := rfl
    rw [hshow]
    cases b with
    | true =>
      have : evict P (appendTrack front l a f m true) =
          (unseenIdxs front).foldl (evictOne P) (appendTrack front l a f m true) := by
        unfold evict
        rw [unseenIdxs_appendTrack]
        simp
      rw [this, foldl_evictOne_appendTrack P (unseenIdxs front) front l a f m
        true halfront (unseenIdxs_pairwise front) (unseenIdxs_lt front)]
      have hev : (unseenIdxs front).foldl (evictOne P) front = evict P front := rfl
      rw [hev, ih front hsn0 halfront]
      show appendTrack (evictClosedForm P front) l a f m true =
        evictClosedForm P (appendTrack front l a f m true)
      unfold evictClosedForm appendTrack
      simp only [hfront]
      congr 1
      · rw [keep_concat _ _ _ _ hl0.symm]; simp
      · rw [keep_concat _ _ _ _ ha0.symm]; simp
      · rw [keep_concat _ _ _ _ hf0.symm]; simp
      · rw [keep_concat _ _ _ _ hm0.symm]; simp
      · rw [keep_concat _ _ _ _ rfl]; simp
      · simp only [List.map_append, List.map_cons, List.map_nil]
        rw [dropsAsc_concat P sn0 fb0 (lb0.map (scaleLen P))
            true f (scaleLen P l) hf0.symm (by simp [hl0, hf0])]
        simp
      · simp only [List.map_append, List.map_cons, List.map_nil]
        rw [dropsAsc_concat P sn0 fb0 (ab0.map (scaleArea P))
            true f (scaleArea P a) hf0.symm (by simp [ha0, hf0])]
        simp
      · rw [dropsAsc_concat P sn0 fb0 fb0 true f f hf0.symm rfl]
        simp
    | false =>
      have hunseen : unseenIdxs (appendTrack front l a f m false) =
          sn0.length :: unseenIdxs front := by
        rw [unseenIdxs_appendTrack]
        simp [hfront]
      unfold evict
      rw [hunseen, List.foldl_cons]
      have he1 : evictOne P (appendTrack front l a f m false) sn0.length =
          if P.framebuff < f then
            ⟨lb0, ab0, fb0, mb0, sn0, la ++ [l / P.ppcm ^ 2],
              aa ++ [(a : ℚ) / P.ppcm ^ 2], fa ++ [f]⟩
          else front :=
        evictOne_concat P lb0 ab0 fb0 mb0 sn0 la aa fa l a f m false
          hl0 ha0 hf0 hm0
      rw [he1]
      by_cases hc : P.framebuff < f
      · simp only [hc, if_true]
        set frontEmit : TrackState := ⟨lb0, ab0, fb0, mb0, sn0,
          la ++ [l / P.ppcm ^ 2], aa ++ [(a : ℚ) / P.ppcm ^ 2], fa ++ [f]⟩
          with hfe
        have hev : (unseenIdxs front).foldl (evictOne P) frontEmit =
            evict P frontEmit := rfl
        rw [hev, ih frontEmit (by simp [hfe, hsn0]) ⟨hl0, ha0, hf0, hm0⟩]
        unfold evictClosedForm appendTrack
        simp only [hfront, hfe]
        congr 1
        · rw [keep_concat _ _ _ _ hl0.symm]; simp
        · rw [keep_concat _ _ _ _ ha0.symm]; simp
        · rw [keep_concat _ _ _ _ hf0.symm]; simp
        · rw [keep_concat _ _ _ _ hm0.symm]; simp
        · rw [keep_concat _ _ _ _ rfl]; simp
        · simp only [List.map_append, List.map_cons, List.map_nil]
          rw [dropsAsc_concat P sn0 fb0 (lb0.map (scaleLen P))
              false f (scaleLen P l) hf0.symm (by simp [hl0, hf0])]
          simp [hc, scaleLen]
        · simp only [List.map_append, List.map_cons, List.map_nil]
          rw [dropsAsc_concat P sn0 fb0 (ab0.map (scaleArea P))
              false f (scaleArea P a) hf0.symm (by simp [ha0, hf0])]
          simp [hc, scaleArea]
        · rw [dropsAsc_concat P sn0 fb0 fb0 false f f hf0.symm rfl]
          simp [hc]
      · simp only [hc, if_false]
        have hev : (unseenIdxs front).foldl (evictOne P) front =
            evict P front := rfl
        rw [hev, ih front hsn0 halfront]
        unfold evictClosedForm appendTrack
        simp only [hfront]
        congr 1
        · rw [keep_concat _ _ _ _ hl0.symm]; simp
        · rw [keep_concat _ _ _ _ ha0.symm]; simp
        · rw [keep_concat _ _ _ _ hf0.symm]; simp
        · rw [keep_concat _ _ _ _ hm0.symm]; simp
        · rw [keep_concat _ _ _ _ rfl]; simp
        · simp only [List.map_append, List.map_cons, List.map_nil]
          rw [dropsAsc_concat P sn0 fb0 (lb0.map (scaleLen P))
              false f (scaleLen P l) hf0.symm (by simp [hl0, hf0])]
          simp [hc]
        · simp only [List.map_append, List.map_cons, List.map_nil]
          rw [dropsAsc_concat P sn0 fb0 (ab0.map (scaleArea P))
              false f (scaleArea P a) hf0.symm (by simp [ha0, hf0])]
          simp [hc]
        · rw [dropsAsc_concat P sn0 fb0 fb0 false f f hf0.symm rfl]
          simp [hc]

theorem initState_aligned : aligned initState := ⟨rfl, rfl, rfl, rfl⟩

theorem evict_aligned (P : Params) (s : TrackState) (h : aligned s) :
    aligned (evict P s) := by
  unfold evict
  generalize unseenIdxs s = idxs
  induction idxs generalizing s with
  | nil => exact h
  | cons i rest ih => exact ih (evictOne P s i) (evictOne_aligned P s i h)

theorem resetSeen_aligned (s : TrackState) (h : aligned s) :
    aligned (resetSeen s) := by
  obtain ⟨h1, h2, h3, h4⟩ := h
  refine ⟨?_, ?_, ?_, ?_⟩ <;> simp [resetSeen, h1, h2, h3, h4]

theorem associateRegion_aligned (P : Params) (s : TrackState) (r : RegionStats)
    (h : aligned s) : aligned (associateRegion P s r) := by
  obtain ⟨h1, h2, h3, h4⟩ := h
  unfold associateRegion
  by_cases hany :
      (s.mean_buffer.map fun v => withinShift P.meanshift (sqDist v r.mean)).any id <;>
    simp [aligned, hany, List.length_zipWith, h1, h2, h3, h4]

theorem foldl_associateRegion_aligned (P : Params) (regions : List RegionStats) :
    ∀ (s : TrackState), aligned s →
      aligned (regions.foldl (associateRegion P) s) := by
  induction regions with
  | nil => exact fun s h => h
  | cons r rest ih =>
    exact fun s h => ih (associateRegion P s r) (associateRegion_aligned P s r h)

theorem frameLifecycle_aligned (P : Params) (regions : List RegionStats)
    (s : TrackState) (h : aligned s) : aligned (frameLifecycle P regions s) :=
  evict_aligned P _
    (foldl_associateRegion_aligned P regions (resetSeen s) (resetSeen_aligned s h))

theorem processFrame_aligned (P : Params) (lab4 lab8 : Grid → Grid × ℕ)
    (s : TrackState) (mask : Grid) (h : aligned s) :
    aligned (processFrame P lab4 lab8 s mask) := by
  unfold processFrame
  by_cases h1 : allZero (denoise lab4 mask P.nthresh)
  · simpa [h1]
  · by_cases h2 : allZero (remove_border_tracks (lab8 (denoise lab4 mask P.nthresh)).1)
    · simpa [h1, h2]
    · simpa [h1, h2] using frameLifecycle_aligned P _ s h

theorem runLoop_aligned (P : Params) (lab4 lab8 : Grid → Grid × ℕ)
    (masks : List Grid) : aligned (runLoop P lab4 lab8 masks) := by
  unfold runLoop
  have : ∀ (ms : List Grid) (s : TrackState), aligned s →
      aligned (ms.foldl (processFrame P lab4 lab8) s) := by
    intro ms
    induction ms with
    | nil => exact fun s h => h
    | cons m rest ih =>
      exact fun s h => ih _ (processFrame_aligned P lab4 lab8 s m h)
  exact this masks initState initState_aligned

theorem getD_map {α β : Type _} (f : α → β) (xs : List α) (i : ℕ) (dx : α)
    (d : β) (h : i < xs.length) :
    (xs.map f).getD i d = f (xs.getD i dx) := by
  rw [getD_eq_getElem _ d i (by simpa using h), List.getElem_map,
    getD_eq_getElem _ dx i h]

theorem getD_zipWith {α β γ : Type _} (f : α → β → γ) (xs : List α)
    (ys : List β) (i : ℕ) (d : γ) (dx : α) (dy : β)
    (hx : i < xs.length) (hy : i < ys.length) :
    (List.zipWith f xs ys).getD i d = f (xs.getD i dx) (ys.getD i dy) := by
  rw [getD_eq_getElem _ d i (by simp [List.length_zipWith]; omega),
    List.getElem_zipWith, getD_eq_getElem _ dx i hx, getD_eq_getElem _ dy i hy]

theorem ite_lt_eq_max {α : Type _} [LinearOrder α] (a b : α) :
    (if a < b then b else a) = max a b := by
  rcases lt_or_le a b with hab | hab
  · rw [if_pos hab, max_eq_right hab.le]
  · rw [if_neg (not_lt.mpr hab), max_eq_left hab]

theorem associateRegion_getD (P : Params) (s : TrackState) (r : RegionStats)
    (i : ℕ) (h : aligned s) (hi : i < s.seen.length) :
    ((associateRegion P s r).frame_buffer.getD i 0 =
        (if hitAt P s r i then s.frame_buffer.getD i 0 + 1
         else s.frame_buffer.getD i 0)) ∧
    ((associateRegion P s r).seen.getD i false =
        (if hitAt P s r i then true else s.seen.getD i false)) ∧
    ((associateRegion P s r).mean_buffer.getD i (0, 0) =
        (if hitAt P s r i then r.mean else s.mean_buffer.getD i (0, 0))) ∧
    ((associateRegion P s r).len_buffer.getD i 0 =
        (if hitAt P s r i then max (s.len_buffer.getD i 0) r.lenSq
         else s.len_buffer.getD i 0)) ∧
    ((associateRegion P s r).area_buffer.getD i 0 =
        (if hitAt P s r i then max (s.area_buffer.getD i 0) r.area
         else s.area_buffer.getD i 0)) := by
  obtain ⟨h1, h2, h3, h4⟩ := h
  have hLhits : (s.mean_buffer.map
      (fun v => withinShift P.meanshift (sqDist v r.mean))).length =
      s.seen.length := by simp [h4]
  have hhit : (s.mean_buffer.map
        (fun v => withinShift P.meanshift (sqDist v r.mean))).getD i false =
      hitAt P s r i := by
    rw [getD_map _ _ i (0, 0) false (by omega)]
    rfl
  unfold associateRegion
  by_cases hany :
      (s.mean_buffer.map fun v => withinShift P.meanshift (sqDist v r.mean)).any id
  · simp only [hany, if_true]
    refine ⟨?_, ?_, ?_, ?_, ?_⟩
    · rw [getD_zipWith _ s.frame_buffer _ i 0 0 false (by omega) (by omega), hhit]
    · rw [getD_zipWith _ s.seen _ i false false false (by omega) (by omega), hhit]
    · rw [getD_zipWith _ s.mean_buffer _ i (0, 0) (0, 0) false (by omega)
        (by omega), hhit]
    · rw [getD_zipWith _ s.len_buffer _ i 0 0 false (by omega) (by omega), hhit]
      cases hv : hitAt P s r i <;> simp [ite_lt_eq_max]
    · rw [getD_zipWith _ s.area_buffer _ i 0 0 false (by omega) (by omega), hhit]
      cases hv : hitAt P s r i <;> simp [ite_lt_eq_max]
  · simp only [hany, Bool.false_eq_true, if_false]
    refine ⟨?_, ?_, ?_, ?_, ?_⟩
    · rw [getD_append_lt _ _ _ _ (by simp [List.length_zipWith]; omega),
        getD_zipWith _ s.frame_buffer _ i 0 0 false (by omega) (by omega), hhit]
    · rw [getD_append_lt _ _ _ _ (by simp [List.length_zipWith]; omega),
        getD_zipWith _ s.seen _ i false false false (by omega) (by omega), hhit]
    · rw [getD_append_lt _ _ _ _ (by simp [List.length_zipWith]; omega),
        getD_zipWith _ s.mean_buffer _ i (0, 0) (0, 0) false (by omega)
          (by omega), hhit]
    · rw [getD_append_lt _ _ _ _ (by simp [List.length_zipWith]; omega),
        getD_zipWith _ s.len_buffer _ i 0 0 false (by omega) (by omega), hhit]
      cases hv : hitAt P s r i <;> simp [ite_lt_eq_max]
    · rw [getD_append_lt _ _ _ _ (by simp [List.length_zipWith]; omega),
        getD_zipWith _ s.area_buffer _ i 0 0 false (by omega) (by omega), hhit]
      cases hv : hitAt P s r i <;> simp [ite_lt_eq_max]

theorem zipWith_no_hits {α : Type _} (g : α → Bool → α) (hg : ∀ x, g x false = x) :
    ∀ (xs : List α) (hits : List Bool), xs.length = hits.length →
      (∀ b ∈ hits, b = false) → List.zipWith g xs hits = xs
  | [], [], _, _ => rfl
  | x :: xs, b :: hits, hlen, hall => by
    have hb : b = false := hall b (List.mem_cons_self b hits)
    subst hb
    simp only [List.zipWith_cons_cons, hg x]
    rw [zipWith_no_hits g hg xs hits (by simpa using hlen)
      (fun c hc => hall c (List.mem_cons_of_mem _ hc))]

/-- When no live centroid is within the threshold, the region creates a new
track: all five buffers are appended to, with `frames_seen = 1`. -/
theorem associateRegion_noMatch (P : Params) (s : TrackState) (r : RegionStats)
    (h : aligned s)
    (hm : ∀ v ∈ s.mean_buffer, withinShift P.meanshift (sqDist v r.mean) = false) :
    associateRegion P s r = appendTrack s r.lenSq r.area 1 r.mean true := by
  obtain ⟨h1, h2, h3, h4⟩ := h
  have hall : ∀ b ∈ s.mean_buffer.map
      (fun v => withinShift P.meanshift (sqDist v r.mean)), b = false := by
    intro b hb
    rw [List.mem_map] at hb
    obtain ⟨v, hv, rfl⟩ := hb
    exact hm v hv
  have hany : (s.mean_buffer.map
      (fun v => withinShift P.meanshift (sqDist v r.mean))).any id = false := by
    rw [List.any_eq_false]
    intro b hb
    simp [hall b hb]
  unfold associateRegion appendTrack
  simp only [hany, Bool.false_eq_true, if_false]
  congr 1 <;>
    rw [zipWith_no_hits _ (fun x => rfl) _ _ (by simp [List.length_map, h1, h2, h3, h4]) hall]

theorem sqDist_nonneg (a b : ℚ × ℚ) : 0 ≤ sqDist a b := by
  unfold sqDist
  positivity

/-- Justification of the squared-distance embedding: `withinShift m d2`
agrees with the source's comparison `sqrt d2 < m` of the real Euclidean
distance. -/
theorem withinShift_iff_sqrt_lt (m d2 : ℚ) :
    withinShift m d2 = true ↔ Real.sqrt (d2 : ℝ) < (m : ℝ) := by
  unfold withinShift
  simp only [Bool.and_eq_true, decide_eq_true_eq]
  constructor
  · rintro ⟨hm, hd⟩
    rw [Real.sqrt_lt' (by exact_mod_cast hm)]
    exact_mod_cast hd
  · intro hlt
    have hm : (0 : ℝ) < (m : ℝ) := lt_of_le_of_lt (Real.sqrt_nonneg _) hlt
    refine ⟨by exact_mod_cast hm, ?_⟩
    have := (Real.sqrt_lt' hm).mp hlt
    exact_mod_cast this

theorem associateRegion_frames_abs (P : Params) (s : TrackState)
    (r : RegionStats) : (associateRegion P s r).frames_abs = s.frames_abs := by
  unfold associateRegion
  by_cases hany : (s.mean_buffer.map
      (fun v => withinShift P.meanshift (sqDist v r.mean))).any id <;> simp [hany]

theorem foldl_associateRegion_frames_abs (P : Params) :
    ∀ (regions : List RegionStats) (s : TrackState),
      (regions.foldl (associateRegion P) s).frames_abs = s.frames_abs
  | [], _ => rfl
  | r :: rest, s => by
    rw [List.foldl_cons, foldl_associateRegion_frames_abs P rest,
      associateRegion_frames_abs]

theorem evictOne_frames_abs_extend (P : Params) (s : TrackState) (i : ℕ) :
    ∃ u, (evictOne P s i).frames_abs = s.frames_abs ++ u := by
  unfold evictOne
  by_cases hc : P.framebuff < s.frame_buffer[i]?.getD 0
  · exact ⟨[s.frame_buffer.getD i 0], by simp [hc]⟩
  · exact ⟨[], by simp [hc]⟩

theorem evict_frames_abs_extend (P : Params) (s : TrackState) :
    ∃ u, (evict P s).frames_abs = s.frames_abs ++ u := by
  unfold evict
  generalize unseenIdxs s = idxs
  induction idxs generalizing s with
  | nil => exact ⟨[], by simp⟩
  | cons i rest ih =>
    obtain ⟨u, hu⟩ := evictOne_frames_abs_extend P s i
    obtain ⟨w, hw⟩ := ih (evictOne P s i)
    exact ⟨u ++ w, by rw [List.foldl_cons, hw, hu, List.append_assoc]⟩

theorem processFrame_frames_abs_extend (P : Params)
    (lab4 lab8 : Grid → Grid × ℕ) (s : TrackState) (mask : Grid) :
    ∃ u, (processFrame P lab4 lab8 s mask).frames_abs = s.frames_abs ++ u := by
  unfold processFrame
  by_cases hz1 : allZero (denoise lab4 mask P.nthresh)
  · exact ⟨[], by simp [hz1]⟩
  by_cases hz2 : allZero (remove_border_tracks (lab8 (denoise lab4 mask P.nthresh)).1)
  · exact ⟨[], by simp [hz1, hz2]⟩
  simp only [hz1, hz2, Bool.false_eq_true, if_false]
  unfold frameLifecycle
  obtain ⟨u, hu⟩ := evict_frames_abs_extend P
    (((List.range (lab8 (denoise lab4 mask P.nthresh)).2).filterMap
        (fun i => statsOf (remove_border_tracks (lab8 (denoise lab4 mask P.nthresh)).1) (i + 1))).foldl
      (associateRegion P) (resetSeen s))
  exact ⟨u, by rw [hu, foldl_associateRegion_frames_abs]; rfl⟩

theorem foldl_frames_abs_emits (P : Params) (lab4 lab8 : Grid → Grid × ℕ) :
    ∀ (masks : List Grid) (s : TrackState),
      (masks.foldl (processFrame P lab4 lab8) s).frames_abs =
        s.frames_abs ++ loopEmits P lab4 lab8 masks s
  | [], s => by simp [loopEmits]
  | m :: ms, s => by
    rw [List.foldl_cons]
    obtain ⟨u, hu⟩ := processFrame_frames_abs_extend P lab4 lab8 s m
    rw [foldl_frames_abs_emits P lab4 lab8 ms (processFrame P lab4 lab8 s m)]
    show _ = s.frames_abs ++ ((processFrame P lab4 lab8 s m).frames_abs.drop
        s.frames_abs.length ++ loopEmits P lab4 lab8 ms (processFrame P lab4 lab8 s m))
    rw [hu, List.drop_left, List.append_assoc]

theorem headD_eq_getD_zero (g : Grid) : g.headD [] = g.getD 0 [] := by
  cases g <;> rfl

theorem getLastD_eq_getD (g : Grid) :
    g.getLastD [] = g.getD (g.length - 1) [] := by
  rw [List.getLastD_eq_getLast?, List.getLast?_eq_getElem?,
    List.getD_eq_getElem?_getD]

theorem getD_row_mem (g : Grid) (r : ℕ) (h : r < g.length) : g.getD r [] ∈ g := by
  rw [getD_eq_getElem _ _ _ h]
  exact List.getElem_mem h

theorem cellD_mem_flatten (g : Grid) (r c : ℕ) (hr : r < g.length)
    (hc : c < (g.getD r []).length) : cellD g r c ∈ g.flatten := by
  refine List.mem_flatten.mpr ⟨g.getD r [], getD_row_mem g r hr, ?_⟩
  rw [cellD, getD_eq_getElem _ _ _ hc]
  exact List.getElem_mem hc

theorem foldl_max_init_le : ∀ (l : List ℕ) (a : ℕ), a ≤ l.foldl max a
  | [], a => le_refl a
  | b :: l, a => le_trans (le_max_left a b) (foldl_max_init_le l (max a b))

theorem le_foldl_max : ∀ (l : List ℕ) (a x : ℕ), x ∈ l → x ≤ l.foldl max a
  | b :: l, a, x, hx => by
    rcases List.mem_cons.mp hx with rfl | hx
    · exact le_trans (le_max_right a x) (foldl_max_init_le l _)
    · exact le_foldl_max l _ x hx

theorem mem_noiseLabels_iff (L : Grid) (n v : ℕ) (hv : v ∈ L.flatten) :
    v ∈ noiseLabels L n ↔ countVal L v ≤ n := by
  unfold noiseLabels
  rw [List.mem_filter, List.mem_range]
  constructor
  · intro h
    simpa using h.2
  · intro h
    exact ⟨Nat.lt_succ_of_le (le_foldl_max L.flatten 0 v hv), by simpa using h⟩

theorem denoiseWith_cell (image L : Grid) (n : ℕ) (r c : ℕ)
    (hr : r < image.length) (hrL : r < L.length)
    (hc : c < (image.getD r []).length) (hcL : c < (L.getD r []).length) :
    cellD (denoiseWith image L n) r c =
      if cellD L r c ∈ noiseLabels L n then 0 else cellD image r c := by
  unfold denoiseWith cellD
  rw [getD_zipWith _ image L r [] [] [] hr hrL,
    getD_zipWith _ (image.getD r []) (L.getD r []) c 0 0 0 hc hcL]

theorem remove_border_cell (g : Grid) (r c : ℕ) (hr : r < g.length)
    (hc : c < (g.getD r []).length) :
    cellD (remove_border_tracks g) r c =
      if cellD g r c ∈ borderVals g then 0 else cellD g r c := by
  unfold remove_border_tracks cellD
  rw [getD_map _ g r [] [] hr, getD_map _ (g.getD r []) c 0 0 hc]

theorem mem_borderVals (g : Grid) (v : ℕ) :
    v ∈ borderVals g ↔
      v ≠ 0 ∧ ∃ r c, r < g.length ∧ c < (g.getD r []).length ∧
        isBorderCell g r c ∧ cellD g r c = v := by
  constructor
  · intro hmem
    unfold borderVals at hmem
    simp only [List.mem_append] at hmem
    rcases hmem with ((hlb | hrb) | htb) | hbb
    · obtain ⟨hin, hne⟩ := List.mem_filter.mp hlb
      refine ⟨by simpa using hne, ?_⟩
      obtain ⟨row, hrow, hhead⟩ := List.mem_filterMap.mp hin
      obtain ⟨r, hr, hrk⟩ := List.mem_iff_getElem.mp hrow
      obtain ⟨ys, hys⟩ := List.head?_eq_some_iff.mp hhead
      have hrowD : g.getD r [] = row := by rw [getD_eq_getElem _ _ _ hr, hrk]
      refine ⟨r, 0, hr, ?_, Or.inr (Or.inr (Or.inl rfl)), ?_⟩
      · rw [hrowD, hys]; simp
      · rw [cellD, hrowD, hys]; rfl
    · obtain ⟨hin, hne⟩ := List.mem_filter.mp hrb
      refine ⟨by simpa using hne, ?_⟩
      obtain ⟨row, hrow, hlast⟩ := List.mem_filterMap.mp hin
      obtain ⟨r, hr, hrk⟩ := List.mem_iff_getElem.mp hrow
      rw [List.getLast?_eq_getElem?] at hlast
      obtain ⟨hlt, hval⟩ := List.getElem?_eq_some_iff.mp hlast
      have hrowD : g.getD r [] = row := by rw [getD_eq_getElem _ _ _ hr, hrk]
      refine ⟨r, row.length - 1, hr, by rw [hrowD]; omega,
        Or.inr (Or.inr (Or.inr (by rw [hrowD]; omega))), ?_⟩
      rw [cellD, hrowD, getD_eq_getElem _ _ _ hlt, hval]
    · obtain ⟨hin, hne⟩ := List.mem_filter.mp htb
      refine ⟨by simpa using hne, ?_⟩
      obtain ⟨i, hi, hval⟩ := List.mem_iff_getElem.mp hin
      rw [List.getElem_dropLast, List.getElem_drop] at hval
      simp only [List.length_dropLast, List.length_drop] at hi
      have hg : 0 < g.length := by
        by_contra hg0
        have : g = [] := List.length_eq_zero.mp (by omega)
        rw [this] at hi
        simp at hi
      have hrowD : g.headD [] = g.getD 0 [] := headD_eq_getD_zero g
      refine ⟨0, 1 + i, hg, by rw [← hrowD]; omega, Or.inl rfl, ?_⟩
      rw [cellD, ← hrowD, getD_eq_getElem _ _ _ (by omega), hval]
    · obtain ⟨hin, hne⟩ := List.mem_filter.mp hbb
      refine ⟨by simpa using hne, ?_⟩
      obtain ⟨i, hi, hval⟩ := List.mem_iff_getElem.mp hin
      rw [List.getElem_dropLast, List.getElem_drop] at hval
      simp only [List.length_dropLast, List.length_drop] at hi
      have hg : 0 < g.length := by
        by_contra hg0
        have hgnil : g = [] := List.length_eq_zero.mp (by omega)
        rw [hgnil] at hi
        simp at hi
      have hrowD : g.getLastD [] = g.getD (g.length - 1) [] := getLastD_eq_getD g
      refine ⟨g.length - 1, 1 + i, by omega, by rw [← hrowD]; omega,
        Or.inr (Or.inl (by omega)), ?_⟩
      rw [cellD, ← hrowD, getD_eq_getElem _ _ _ (by omega), hval]
  · rintro ⟨hne, r, c, hr, hc, hb, hv⟩
    unfold borderVals
    simp only [List.mem_append]
    by_cases hc0 : c = 0
    · refine Or.inl (Or.inl (Or.inl (List.mem_filter.mpr ⟨?_, by simpa using hne⟩)))
      refine List.mem_filterMap.mpr ⟨g.getD r [], getD_row_mem g r hr, ?_⟩
      have : (g.getD r []).head? = (g.getD r [])[0]? := by
        cases hrow : g.getD r [] <;> simp
      rw [this, List.getElem?_eq_getElem (by omega)]
      subst hc0
      rw [← hv, cellD, getD_eq_getElem _ _ _ hc]
    · by_cases hclast : c + 1 = (g.getD r []).length
      · refine Or.inl (Or.inl (Or.inr (List.mem_filter.mpr ⟨?_, by simpa using hne⟩)))
        refine List.mem_filterMap.mpr ⟨g.getD r [], getD_row_mem g r hr, ?_⟩
        rw [List.getLast?_eq_getElem?, show (g.getD r []).length - 1 = c by omega,
          List.getElem?_eq_getElem hc, ← hv, cellD, getD_eq_getElem _ _ _ hc]
      · rcases hb with hb0 | hblast | hb2 | hb3
        · refine Or.inl (Or.inr (List.mem_filter.mpr ⟨?_, by simpa using hne⟩))
          subst hb0
          refine List.mem_iff_getElem.mpr ⟨c - 1, ?_, ?_⟩
          · simp only [List.length_dropLast, List.length_drop,
              headD_eq_getD_zero]
            omega
          · rw [List.getElem_dropLast, List.getElem_drop]
            have hsome : (g.headD [])[1 + (c - 1)]? = some v := by
              rw [headD_eq_getD_zero, show 1 + (c - 1) = c by omega,
                List.getElem?_eq_getElem hc, ← hv, cellD,
                getD_eq_getElem _ _ _ hc]
            exact (List.getElem?_eq_some_iff.mp hsome).2
        · refine Or.inr (List.mem_filter.mpr ⟨?_, by simpa using hne⟩)
          have hreq : r = g.length - 1 := by omega
          refine List.mem_iff_getElem.mpr ⟨c - 1, ?_, ?_⟩
          · simp only [List.length_dropLast, List.length_drop, getLastD_eq_getD]
            rw [← hreq]
            omega
          · rw [List.getElem_dropLast, List.getElem_drop]
            have hsome : (g.getLastD [])[1 + (c - 1)]? = some v := by
              rw [getLastD_eq_getD, ← hreq, show 1 + (c - 1) = c by omega,
                List.getElem?_eq_getElem hc, ← hv, cellD,
                getD_eq_getElem _ _ _ hc]
            exact (List.getElem?_eq_some_iff.mp hsome).2
        · exact absurd hb2 hc0
        · exact absurd hb3 hclast

theorem processFrame_skip_denoise (P : Params) (lab4 lab8 : Grid → Grid × ℕ)
    (s : TrackState) (mask : Grid)
    (h : allZero (denoise lab4 mask P.nthresh) = true) :
    processFrame P lab4 lab8 s mask = s := by
  unfold processFrame
  simp [h]

theorem processFrame_skip_border (P : Params) (lab4 lab8 : Grid → Grid × ℕ)
    (s : TrackState) (mask : Grid)
    (h : allZero (remove_border_tracks (lab8 (denoise lab4 mask P.nthresh)).1) = true) :
    processFrame P lab4 lab8 s mask = s := by
  unfold processFrame
  by_cases h1 : allZero (denoise lab4 mask P.nthresh) <;> simp [h1, h]

/-- C4: a frame whose foreground is entirely background after denoising, or
after border-region removal, is skipped: no seen-flag reset, association,
finalization or eviction runs, so the whole track state (all five parallel
buffers and the accumulated output lists) is unchanged — and a run of any
number of consecutive such frames leaves the state unchanged. -/
theorem empty_frame_skips (P : Params) (lab4 lab8 : Grid → Grid × ℕ)
    (s : TrackState) :
    (∀ mask : Grid, allZero (denoise lab4 mask P.nthresh) = true →
      processFrame P lab4 lab8 s mask = s) ∧
    (∀ mask : Grid,
      allZero (remove_border_tracks (lab8 (denoise lab4 mask P.nthresh)).1) = true →
      processFrame P lab4 lab8 s mask = s) ∧
    (∀ masks : List Grid,
      (∀ m ∈ masks, allZero (denoise lab4 m P.nthresh) = true ∨
        allZero (remove_border_tracks (lab8 (denoise lab4 m P.nthresh)).1) = true) →
      masks.foldl (processFrame P lab4 lab8) s = s) := by
  refine ⟨fun mask h => processFrame_skip_denoise P lab4 lab8 s mask h,
    fun mask h => processFrame_skip_border P lab4 lab8 s mask h, ?_⟩
  intro masks
  induction masks with
  | nil => intro _; rfl
  | cons m ms ih =>
    intro hall
    rw [List.foldl_cons]
    have hstep : processFrame P lab4 lab8 s m = s := by
      rcases hall m (List.mem_cons_self m ms) with h | h
      · exact processFrame_skip_denoise P lab4 lab8 s m h
      · exact processFrame_skip_border P lab4 lab8 s m h
    rw [hstep]
    exact ih (fun x hx => hall x (List.mem_cons_of_mem m hx))

/-- Witness for C4: a concrete all-zero mask leaves a concrete non-trivial
state untouched. -/
theorem empty_frame_skips_witness :
    allZero (denoise identityLabeler [[0, 0], [0, 0]]
      (⟨1, 25, 0, 120⟩ : Params).nthresh) = true ∧
    processFrame ⟨1, 25, 0, 120⟩ identityLabeler identityLabeler
        ⟨[5], [6], [7], [(1, 2)], [true], [8], [9], [10]⟩ [[0, 0], [0, 0]] =
      ⟨[5], [6], [7], [(1, 2)], [true], [8], [9], [10]⟩ :=
  ⟨by decide,
    (empty_frame_skips ⟨1, 25, 0, 120⟩ identityLabeler identityLabeler
      ⟨[5], [6], [7], [(1, 2)], [true], [8], [9], [10]⟩).1
      [[0, 0], [0, 0]] (by decide)⟩

/-- C6: the five parallel per-track buffers have identical length at every
mutation barrier: the initial state is aligned, every association step
(in-place update or five-fold append) preserves alignment, every eviction
pass (five-fold same-index deletion) preserves alignment, and a full run of
the frame loop yields an aligned state. -/
theorem parallel_buffers_same_length :
    aligned initState ∧
    (∀ (P : Params) (s : TrackState) (r : RegionStats), aligned s →
      aligned (associateRegion P s r)) ∧
    (∀ (P : Params) (s : TrackState), aligned s → aligned (evict P s)) ∧
    (∀ (P : Params) (lab4 lab8 : Grid → Grid × ℕ) (masks : List Grid),
      aligned (runLoop P lab4 lab8 masks)) :=
  ⟨initState_aligned, fun P s r h => associateRegion_aligned P s r h,
    fun P s h => evict_aligned P s h,
    fun P l4 l8 masks => runLoop_aligned P l4 l8 masks⟩

/-- Witness for C6 at a concrete aligned state and region. -/
theorem parallel_buffers_same_length_witness :
    aligned (⟨[3], [4], [5], [(0, 0)], [false], [], [], []⟩ : TrackState) ∧
    aligned (associateRegion ⟨1, 25, 0, 120⟩
      ⟨[3], [4], [5], [(0, 0)], [false], [], [], []⟩ ⟨(0, 0), 0, 1⟩) :=
  ⟨by decide, parallel_buffers_same_length.2.1 ⟨1, 25, 0, 120⟩
    ⟨[3], [4], [5], [(0, 0)], [false], [], [], []⟩ ⟨(0, 0), 0, 1⟩ (by decide)⟩

/-- C3: at the end of a processed frame the eviction pass removes exactly
the tracks whose seen flag is false (the surviving buffers are the
`keep`-filtered originals), and emits a finalized record exactly for each
unseen track whose `frames_seen` is strictly greater than `framebuff`
(`dropsAsc` keeps an unseen entry only when `P.framebuff < frames_seen`);
in particular a track with `frames_seen = framebuff` is removed without a
record. -/
theorem unseen_eviction_and_emission (P : Params) (s : TrackState)
    (h : aligned s) :
    (evict P s).seen = keep s.seen s.seen ∧
    (evict P s).frame_buffer = keep s.seen s.frame_buffer ∧
    (evict P s).frames_abs =
      s.frames_abs ++ (dropsAsc P s.seen s.frame_buffer s.frame_buffer).reverse ∧
    (evict P s).len_abs = s.len_abs ++
      (dropsAsc P s.seen s.frame_buffer (s.len_buffer.map (scaleLen P))).reverse ∧
    (evict P s).area_abs = s.area_abs ++
      (dropsAsc P s.seen s.frame_buffer (s.area_buffer.map (scaleArea P))).reverse := by
  rw [evict_closedForm P s.seen.length s rfl h]
  exact ⟨rfl, rfl, rfl, rfl, rfl⟩

/-- Witness for C3: two unseen tracks, one with `frames_seen = 2` above the
threshold 1 (emitted) and one with `frames_seen = 1` exactly at it
(silently removed). -/
theorem unseen_eviction_and_emission_witness :
    aligned evictDemoState ∧
    ((evict ⟨1, 25, 0, 120⟩ evictDemoState).seen =
        keep evictDemoState.seen evictDemoState.seen ∧
      (evict ⟨1, 25, 0, 120⟩ evictDemoState).frame_buffer =
        keep evictDemoState.seen evictDemoState.frame_buffer ∧
      (evict ⟨1, 25, 0, 120⟩ evictDemoState).frames_abs =
        evictDemoState.frames_abs ++
          (dropsAsc ⟨1, 25, 0, 120⟩ evictDemoState.seen
            evictDemoState.frame_buffer evictDemoState.frame_buffer).reverse ∧
      (evict ⟨1, 25, 0, 120⟩ evictDemoState).len_abs =
        evictDemoState.len_abs ++
          (dropsAsc ⟨1, 25, 0, 120⟩ evictDemoState.seen
            evictDemoState.frame_buffer
            (evictDemoState.len_buffer.map (scaleLen ⟨1, 25, 0, 120⟩))).reverse ∧
      (evict ⟨1, 25, 0, 120⟩ evictDemoState).area_abs =
        evictDemoState.area_abs ++
          (dropsAsc ⟨1, 25, 0, 120⟩ evictDemoState.seen
            evictDemoState.frame_buffer
            (evictDemoState.area_buffer.map (scaleArea ⟨1, 25, 0, 120⟩))).reverse) :=
  ⟨by decide, unseen_eviction_and_emission ⟨1, 25, 0, 120⟩ evictDemoState (by decide)⟩

/-- C7: unseen indices are processed in strictly descending order, and every
surviving track retains exactly the attribute values it had before the
batch removal: the post-eviction live buffers are the `keep`-filtered
originals, so there is no index-shift corruption. -/
theorem descending_removal_preserves_survivors (P : Params) (s : TrackState)
    (h : aligned s) :
    (unseenIdxs s).Pairwise (· > ·) ∧
    (evict P s).len_buffer = keep s.seen s.len_buffer ∧
    (evict P s).area_buffer = keep s.seen s.area_buffer ∧
    (evict P s).frame_buffer = keep s.seen s.frame_buffer ∧
    (evict P s).mean_buffer = keep s.seen s.mean_buffer := by
  rw [evict_closedForm P s.seen.length s rfl h]
  exact ⟨unseenIdxs_pairwise s, rfl, rfl, rfl, rfl⟩

/-- Witness for C7 at the spec's example: five tracks, unseen indices
[4, 3, 1] (descending); survivors 0 and 2 keep their attributes. -/
theorem descending_removal_preserves_survivors_witness :
    aligned removalDemoState ∧
    unseenIdxs removalDemoState = [4, 3, 1] ∧
    ((unseenIdxs removalDemoState).Pairwise (· > ·) ∧
      (evict ⟨1, 25, 0, 120⟩ removalDemoState).len_buffer =
        keep removalDemoState.seen removalDemoState.len_buffer ∧
      (evict ⟨1, 25, 0, 120⟩ removalDemoState).area_buffer =
        keep removalDemoState.seen removalDemoState.area_buffer ∧
      (evict ⟨1, 25, 0, 120⟩ removalDemoState).frame_buffer =
        keep removalDemoState.seen removalDemoState.frame_buffer ∧
      (evict ⟨1, 25, 0, 120⟩ removalDemoState).mean_buffer =
        keep removalDemoState.seen removalDemoState.mean_buffer) :=
  ⟨by decide, by decide,
    descending_removal_preserves_survivors ⟨1, 25, 0, 120⟩ removalDemoState
      (by decide)⟩

/-- Counterexample to C1: the region at the origin is within threshold of
both live tracks (the first at distance 0, the second at distance 5 < 25);
the inner loop has no `break`, so the second track is also marked seen, has
its centroid overwritten and its `frames_seen` incremented — not only the
first matching track. -/
theorem first_match_only_counterexample :
    hitAt ⟨1, 25, 0, 120⟩ twoTrackState ⟨(0, 0), 0, 1⟩ 0 = true ∧
    hitAt ⟨1, 25, 0, 120⟩ twoTrackState ⟨(0, 0), 0, 1⟩ 1 = true ∧
    twoTrackState.frame_buffer = [1, 1] ∧
    (associateRegion ⟨1, 25, 0, 120⟩ twoTrackState
      ⟨(0, 0), 0, 1⟩).frame_buffer = [2, 2] ∧
    (associateRegion ⟨1, 25, 0, 120⟩ twoTrackState ⟨(0, 0), 0, 1⟩).seen =
      [true, true] ∧
    (associateRegion ⟨1, 25, 0, 120⟩ twoTrackState
      ⟨(0, 0), 0, 1⟩).mean_buffer = [(0, 0), (0, 0)] := by
  norm_num [hitAt, twoTrackState, associateRegion, withinShift, sqDist]

/-- C1 (amended): the association step updates every live track whose
stored centroid is within `meanshift_threshold` of the region's centroid —
marked seen, centroid overwritten, `max_extent`/`max_area` raised to the
running maximum, `frames_seen` incremented — and leaves every live track
outside the threshold completely unmodified. -/
theorem region_updates_every_matching_track (P : Params) (s : TrackState)
    (r : RegionStats) (i : ℕ) (h : aligned s) (hi : i < s.seen.length) :
    (hitAt P s r i = true →
      (associateRegion P s r).frame_buffer.getD i 0 =
          s.frame_buffer.getD i 0 + 1 ∧
      (associateRegion P s r).seen.getD i false = true ∧
      (associateRegion P s r).mean_buffer.getD i (0, 0) = r.mean ∧
      (associateRegion P s r).len_buffer.getD i 0 =
          max (s.len_buffer.getD i 0) r.lenSq ∧
      (associateRegion P s r).area_buffer.getD i 0 =
          max (s.area_buffer.getD i 0) r.area) ∧
    (hitAt P s r i = false →
      (associateRegion P s r).frame_buffer.getD i 0 = s.frame_buffer.getD i 0 ∧
      (associateRegion P s r).seen.getD i false = s.seen.getD i false ∧
      (associateRegion P s r).mean_buffer.getD i (0, 0) =
          s.mean_buffer.getD i (0, 0) ∧
      (associateRegion P s r).len_buffer.getD i 0 = s.len_buffer.getD i 0 ∧
      (associateRegion P s r).area_buffer.getD i 0 =
          s.area_buffer.getD i 0) := by
  obtain ⟨e1, e2, e3, e4, e5⟩ := associateRegion_getD P s r i h hi
  constructor <;> intro hv <;> rw [hv] at e1 e2 e3 e4 e5 <;>
    simp only [if_true, if_false, Bool.false_eq_true] at e1 e2 e3 e4 e5 <;>
    exact ⟨e1, e2, e3, e4, e5⟩

/-- Witness for the amended C1, applied to the second (non-first) matching
track of the counterexample state. -/
theorem region_updates_every_matching_track_witness :
    aligned twoTrackState ∧
    ((associateRegion ⟨1, 25, 0, 120⟩ twoTrackState
        ⟨(0, 0), 0, 1⟩).frame_buffer.getD 1 0 =
      twoTrackState.frame_buffer.getD 1 0 + 1 ∧
    (associateRegion ⟨1, 25, 0, 120⟩ twoTrackState
        ⟨(0, 0), 0, 1⟩).seen.getD 1 false = true ∧
    (associateRegion ⟨1, 25, 0, 120⟩ twoTrackState
        ⟨(0, 0), 0, 1⟩).mean_buffer.getD 1 (0, 0) =
      (⟨(0, 0), 0, 1⟩ : RegionStats).mean ∧
    (associateRegion ⟨1, 25, 0, 120⟩ twoTrackState
        ⟨(0, 0), 0, 1⟩).len_buffer.getD 1 0 =
      max (twoTrackState.len_buffer.getD 1 0)
        (⟨(0, 0), 0, 1⟩ : RegionStats).lenSq ∧
    (associateRegion ⟨1, 25, 0, 120⟩ twoTrackState
        ⟨(0, 0), 0, 1⟩).area_buffer.getD 1 0 =
      max (twoTrackState.area_buffer.getD 1 0)
        (⟨(0, 0), 0, 1⟩ : RegionStats).area) :=
  ⟨by decide,
    (region_updates_every_matching_track ⟨1, 25, 0, 120⟩ twoTrackState
        ⟨(0, 0), 0, 1⟩ 1 (by decide) (by decide)).1
      (by norm_num [hitAt, twoTrackState, withinShift, sqDist])⟩

/-- Counterexample to C2: one live track; a frame with two regions, both
within threshold of it, increments its `frames_seen` twice in that single
frame — after being matched in exactly two distinct frames the counter
reads 3, so `frames_seen` does not equal the number of distinct matched
frames. -/
theorem frames_seen_once_per_frame_counterexample :
    (frameLifecycle ⟨1, 25, 0, 120⟩ [⟨(0, 0), 0, 1⟩]
      initState).frame_buffer = [1] ∧
    (frameLifecycle ⟨1, 25, 0, 120⟩ [⟨(0, 0), 0, 1⟩, ⟨(10, 0), 0, 1⟩]
      (frameLifecycle ⟨1, 25, 0, 120⟩ [⟨(0, 0), 0, 1⟩]
        initState)).frame_buffer = [3] := by
  norm_num [frameLifecycle, associateRegion, withinShift, sqDist, initState,
    resetSeen, evict, unseenIdxs, evictOne]

/-- C2 (amended): `frames_seen` counts region-match events, not distinct
frames: each region whose centroid test succeeds against a track increments
the track's counter by exactly one — so several regions matching in the
same frame increment it several times — and a freshly created track starts
with `frames_seen = 1`. -/
theorem frames_seen_counts_match_events (P : Params) (s : TrackState)
    (r : RegionStats) (i : ℕ) (h : aligned s) (hi : i < s.seen.length) :
    ((associateRegion P s r).frame_buffer.getD i 0 =
      s.frame_buffer.getD i 0 + (if hitAt P s r i then 1 else 0)) ∧
    ((∀ v ∈ s.mean_buffer, withinShift P.meanshift (sqDist v r.mean) = false) →
      (associateRegion P s r).frame_buffer = s.frame_buffer ++ [1]) := by
  constructor
  · have e1 := (associateRegion_getD P s r i h hi).1
    cases hv : hitAt P s r i <;> rw [hv] at e1 <;> simpa using e1
  · intro hm
    rw [associateRegion_noMatch P s r h hm]
    rfl

/-- Witness for the amended C2 at a concrete matching track. -/
theorem frames_seen_counts_match_events_witness :
    aligned twoTrackState ∧
    (associateRegion ⟨1, 25, 0, 120⟩ twoTrackState
        ⟨(0, 0), 0, 1⟩).frame_buffer.getD 0 0 =
      twoTrackState.frame_buffer.getD 0 0 +
        (if hitAt ⟨1, 25, 0, 120⟩ twoTrackState ⟨(0, 0), 0, 1⟩ 0 then 1 else 0) :=
  ⟨by decide,
    (frames_seen_counts_match_events ⟨1, 25, 0, 120⟩ twoTrackState
      ⟨(0, 0), 0, 1⟩ 0 (by decide) (by decide)).1⟩

/-- On the demo mask, one full frame step reduces to the lifecycle over the
single region at (1, 1). -/
theorem processFrame_demoMask (s : TrackState) :
    processFrame ⟨1, 25, 0, 120⟩ identityLabeler identityLabeler s demoMask =
      frameLifecycle ⟨1, 25, 0, 120⟩ [⟨(1, 1), 0, 1⟩] s := by
  unfold processFrame
  have h1 : denoise identityLabeler demoMask
      (⟨1, 25, 0, 120⟩ : Params).nthresh = demoMask := by decide
  have h2 : remove_border_tracks demoMask = demoMask := by decide
  have h3 : allZero demoMask = false := by decide
  have h4 : identityLabeler demoMask = (demoMask, 1) := rfl
  simp only [h1, h4, h2, h3, Bool.false_eq_true, if_false]
  congr 1
  have h5 : coordsOf demoMask 1 = [(1, 1)] := by decide
  norm_num [List.range_succ, List.filterMap_cons, List.filterMap_append,
    statsOf, h5]

/-- C5: when the frame source is exhausted, the program only writes out the
already-accumulated records — the run's `frames_abs` is exactly the
concatenation of the per-frame emissions (`loopEmits`), and tracks still
live in the store are discarded without a record regardless of their
`frames_seen`.  Concretely: after two frames with the same region, the
track is live with `frames_seen = 2 > framebuff = 1`, yet the output is
empty. -/
theorem source_exhaustion_discards_live_tracks :
    (∀ (P : Params) (lab4 lab8 : Grid → Grid × ℕ) (masks : List Grid),
      (runLoop P lab4 lab8 masks).frames_abs =
        loopEmits P lab4 lab8 masks initState) ∧
    ((runLoop ⟨1, 25, 0, 120⟩ identityLabeler identityLabeler
        [demoMask, demoMask]).frame_buffer = [2] ∧
      (⟨1, 25, 0, 120⟩ : Params).framebuff < 2 ∧
      (runLoop ⟨1, 25, 0, 120⟩ identityLabeler identityLabeler
        [demoMask, demoMask]).frames_abs = []) := by
  have hrun : runLoop ⟨1, 25, 0, 120⟩ identityLabeler identityLabeler
      [demoMask, demoMask] =
      frameLifecycle ⟨1, 25, 0, 120⟩ [⟨(1, 1), 0, 1⟩]
        (frameLifecycle ⟨1, 25, 0, 120⟩ [⟨(1, 1), 0, 1⟩] initState) := by
    unfold runLoop
    rw [List.foldl_cons, processFrame_demoMask, List.foldl_cons,
      processFrame_demoMask, List.foldl_nil]
  refine ⟨?_, ?_, by norm_num, ?_⟩
  · intro P l4 l8 masks
    unfold runLoop
    rw [foldl_frames_abs_emits]
    rfl
  · rw [hrun]
    norm_num [frameLifecycle, associateRegion, withinShift, sqDist, initState,
      resetSeen, evict, unseenIdxs, evictOne]
  · rw [hrun]
    norm_num [frameLifecycle, associateRegion, withinShift, sqDist, initState,
      resetSeen, evict, unseenIdxs, evictOne]

/-- C10: finalized records carry the running maxima over the matched
frames: the spec's example run (extents 10, 40, 25, i.e. squares 100, 1600,
625; areas 100, 80, 150) finalizes with squared extent 1600 (extent 40) and
area 150, scaled by `pixels_per_cm = 120` as `lenSq/ppcm²` (so the real
length is `sqrt(1600)/120 = 40/120` cm) and `area/ppcm²`; with extent 120
and area 14400 both scaled values are exactly 1 cm / 1 cm².  The last
conjunct is the general per-match running-max update of the buffers. -/
theorem record_maxima_and_scaling :
    maxDemoRun.frames_abs = [3] ∧
    maxDemoRun.len_abs = [1600 / 14400] ∧
    maxDemoRun.area_abs = [150 / 14400] ∧
    Real.sqrt ((1600 / 14400 : ℚ) : ℝ) = 40 / 120 ∧
    convDemoRun.frames_abs = [1] ∧
    convDemoRun.len_abs = [1] ∧
    convDemoRun.area_abs = [1] ∧
    Real.sqrt ((1 : ℚ) : ℝ) = 1 ∧
    (∀ (P : Params) (s : TrackState) (r : RegionStats) (i : ℕ), aligned s →
      i < s.seen.length → hitAt P s r i = true →
      (associateRegion P s r).len_buffer.getD i 0 =
        max (s.len_buffer.getD i 0) r.lenSq ∧
      (associateRegion P s r).area_buffer.getD i 0 =
        max (s.area_buffer.getD i 0) r.area) := by
  refine ⟨?_, ?_, ?_, ?_, ?_, ?_, ?_, ?_, ?_⟩
  · norm_num [maxDemoRun, frameLifecycle, associateRegion, withinShift,
      sqDist, initState, resetSeen, evict, unseenIdxs, evictOne,
      List.foldr_cons, List.foldr_nil, List.filter_cons, List.filter_nil,
      List.range_succ]
  · norm_num [maxDemoRun, frameLifecycle, associateRegion, withinShift,
      sqDist, initState, resetSeen, evict, unseenIdxs, evictOne,
      List.foldr_cons, List.foldr_nil, List.filter_cons, List.filter_nil,
      List.range_succ]
  · norm_num [maxDemoRun, frameLifecycle, associateRegion, withinShift,
      sqDist, initState, resetSeen, evict, unseenIdxs, evictOne,
      List.foldr_cons, List.foldr_nil, List.filter_cons, List.filter_nil,
      List.range_succ]
  · have hq : ((1600 / 14400 : ℚ) : ℝ) = (40 / 120 : ℝ) ^ 2 := by norm_num
    rw [hq, Real.sqrt_sq (by norm_num)]
  · norm_num [convDemoRun, frameLifecycle, associateRegion, withinShift,
      sqDist, initState, resetSeen, evict, unseenIdxs, evictOne,
      List.foldr_cons, List.foldr_nil, List.filter_cons, List.filter_nil,
      List.range_succ]
  · norm_num [convDemoRun, frameLifecycle, associateRegion, withinShift,
      sqDist, initState, resetSeen, evict, unseenIdxs, evictOne,
      List.foldr_cons, List.foldr_nil, List.filter_cons, List.filter_nil,
      List.range_succ]
  · norm_num [convDemoRun, frameLifecycle, associateRegion, withinShift,
      sqDist, initState, resetSeen, evict, unseenIdxs, evictOne,
      List.foldr_cons, List.foldr_nil, List.filter_cons, List.filter_nil,
      List.range_succ]
  · norm_num [Real.sqrt_one]
  · intro P s r i h hi hv
    obtain ⟨_, _, _, e4, e5⟩ := associateRegion_getD P s r i h hi
    rw [hv] at e4 e5
    simp only [if_true] at e4 e5
    exact ⟨e4, e5⟩

/-- Witness for C10's general max-update conjunct at a concrete matching
track. -/
theorem record_maxima_and_scaling_witness :
    aligned twoTrackState ∧
    ((associateRegion ⟨1, 25, 0, 120⟩ twoTrackState
        ⟨(0, 0), 7, 3⟩).len_buffer.getD 0 0 =
      max (twoTrackState.len_buffer.getD 0 0)
        (⟨(0, 0), 7, 3⟩ : RegionStats).lenSq ∧
    (associateRegion ⟨1, 25, 0, 120⟩ twoTrackState
        ⟨(0, 0), 7, 3⟩).area_buffer.getD 0 0 =
      max (twoTrackState.area_buffer.getD 0 0)
        (⟨(0, 0), 7, 3⟩ : RegionStats).area) :=
  ⟨by decide,
    record_maxima_and_scaling.2.2.2.2.2.2.2.2 ⟨1, 25, 0, 120⟩ twoTrackState
      ⟨(0, 0), 7, 3⟩ 0 (by decide) (by decide)
      (by norm_num [hitAt, twoTrackState, withinShift, sqDist])⟩

/-- C8: after `remove_border_tracks`, every region (set of pixels sharing
one non-zero label) whose pixel set intersects row 0, the last row, column
0 or the last column has all of its pixels set to 0 anywhere in the image,
and every region not touching the border keeps its original label value at
every pixel. -/
theorem border_region_removal (g : Grid) (v : ℕ) (hv : v ≠ 0) :
    ((∃ r c, r < g.length ∧ c < (g.getD r []).length ∧ isBorderCell g r c ∧
        cellD g r c = v) →
      ∀ r c, r < g.length → c < (g.getD r []).length → cellD g r c = v →
        cellD (remove_border_tracks g) r c = 0) ∧
    ((∀ r, r < g.length → ∀ c, c < (g.getD r []).length →
        isBorderCell g r c → cellD g r c ≠ v) →
      ∀ r c, r < g.length → c < (g.getD r []).length → cellD g r c = v →
        cellD (remove_border_tracks g) r c = v) := by
  constructor
  · rintro ⟨r0, c0, hr0, hc0, hb0, hv0⟩ r c hr hc hval
    rw [remove_border_cell g r c hr hc, hval,
      if_pos ((mem_borderVals g v).mpr ⟨hv, r0, c0, hr0, hc0, hb0, hv0⟩)]
  · intro hnb r c hr hc hval
    rw [remove_border_cell g r c hr hc, hval, if_neg]
    intro hmem
    obtain ⟨_, r0, c0, hr0, hc0, hb0, hv0⟩ := (mem_borderVals g v).mp hmem
    exact hnb r0 hr0 c0 hc0 hb0 hv0

/-- Witness for C8: region 2 touches the left border and is zeroed at its
pixel; interior region 1 keeps its value. -/
theorem border_region_removal_witness :
    cellD demoBorderImage 1 0 = 2 ∧ isBorderCell demoBorderImage 1 0 ∧
    cellD (remove_border_tracks demoBorderImage) 1 0 = 0 ∧
    cellD (remove_border_tracks demoBorderImage) 1 1 = 1 :=
  ⟨by decide, Or.inr (Or.inr (Or.inl rfl)),
    (border_region_removal demoBorderImage 2 (by decide)).1
      ⟨1, 0, by decide, by decide, Or.inr (Or.inr (Or.inl rfl)), by decide⟩
      1 0 (by decide) (by decide) (by decide),
    (border_region_removal demoBorderImage 1 (by decide)).2
      (by decide) 1 1 (by decide) (by decide) (by decide)⟩

/-- C9: with components taken as the label fibers of the external labeler's
output (same shape as the image), `denoise` zeroes every pixel of each
component whose global pixel count is `≤ nthresh` and leaves every pixel of
each component whose count is `> nthresh` unchanged. -/
theorem denoise_threshold (labelFn : Grid → Grid × ℕ) (image : Grid)
    (n v : ℕ)
    (hlen : image.length = (labelFn image).1.length)
    (hrow : ∀ r, (image.getD r []).length =
      ((labelFn image).1.getD r []).length) :
    (countVal (labelFn image).1 v ≤ n →
      ∀ r c, r < image.length → c < (image.getD r []).length →
        cellD (labelFn image).1 r c = v →
        cellD (denoise labelFn image n) r c = 0) ∧
    (n < countVal (labelFn image).1 v →
      ∀ r c, r < image.length → c < (image.getD r []).length →
        cellD (labelFn image).1 r c = v →
        cellD (denoise labelFn image n) r c = cellD image r c) := by
  have key : ∀ r c, r < image.length → c < (image.getD r []).length →
      cellD (denoise labelFn image n) r c =
        if cellD (labelFn image).1 r c ∈ noiseLabels (labelFn image).1 n
        then 0 else cellD image r c := by
    intro r c hr hc
    exact denoiseWith_cell image (labelFn image).1 n r c hr
      (hlen ▸ hr) hc (hrow r ▸ hc)
  constructor
  · intro hcount r c hr hc hval
    rw [key r c hr hc, hval, if_pos]
    exact (mem_noiseLabels_iff (labelFn image).1 n v
      (hval ▸ cellD_mem_flatten (labelFn image).1 r c (hlen ▸ hr)
        (hrow r ▸ hc))).mpr hcount
  · intro hcount r c hr hc hval
    rw [key r c hr hc, hval, if_neg]
    intro hmem
    have := (mem_noiseLabels_iff (labelFn image).1 n v
      (hval ▸ cellD_mem_flatten (labelFn image).1 r c (hlen ▸ hr)
        (hrow r ▸ hc))).mp hmem
    omega

/-- Witness for C9: the size-1 component is zeroed with `nthresh = 1`; the
size-3 component keeps its pixel value 9. -/
theorem denoise_threshold_witness :
    countVal (demoLabeling demoNoisyImage).1 1 ≤ 1 ∧
    1 < countVal (demoLabeling demoNoisyImage).1 2 ∧
    cellD (denoise demoLabeling demoNoisyImage 1) 0 0 = 0 ∧
    cellD (denoise demoLabeling demoNoisyImage 1) 0 2 =
      cellD demoNoisyImage 0 2 :=
  ⟨by decide, by decide,
    (denoise_threshold demoLabeling demoNoisyImage 1 1 (by decide)
        (fun r => by rcases r with _ | (_ | r) <;> rfl)).1
      (by decide) 0 0 (by decide) (by decide) (by decide),
    (denoise_threshold demoLabeling demoNoisyImage 1 2 (by decide)
        (fun r => by rcases r with _ | (_ | r) <;> rfl)).2
      (by decide) 0 2 (by decide) (by decide) (by decide)⟩

end Tracking
